import Mathlib

/-!
# Verification of the cvxcore matrix/tensor assembly engine

Shallow embedding of `cvxpy/cvxcore/src/cvxcore.cpp`: offset computation,
parameter-tensor initialization, triplet accumulation and the two
`build_matrix` entry points, together with theorems checking the
natural-language specification against this code.

Numeric values (C++ `double`) are modelled as rationals; C++ `int` offsets
are modelled as `Int`; dimension vectors as `List Nat`.  `std::map` values
are modelled as functions into `Option` (for the tensor and the column map)
or as association lists iterated in key order (for the parameter-size map
and the evaluator result).
-/

set_option autoImplicit false

namespace Cvxcore

/-- Numeric value type standing in for C++ `double`. -/
abbrev Value := ℚ

/-- Modelled from the spec: `CONSTANT_ID` is a reserved sentinel variable id
meaning "no variable — constant contribution" (declared in `LinOp.hpp`,
which is outside the assembly core). -/
def CONSTANT_ID : Int := -1

/-- One structurally non-zero entry of an Eigen sparse matrix, as produced
by `Matrix::InnerIterator` (`it.value()`, `it.row()`, `it.col()`). -/
structure SparseEntry where
  val : Value
  row : Nat
  col : Nat
deriving DecidableEq, Repr

/-- Modelled from the spec: a Sparse Block — an immutable 2-D sparse numeric
matrix, coordinate-accessible, read-only to the core (Eigen `Matrix`, outside
the core).  `entries` lists its structural non-zeros in the order the nested
`outerSize`/`InnerIterator` loops of the source visit them. -/
structure Matrix where
  rows : Nat
  cols : Nat
  entries : List SparseEntry
deriving DecidableEq, Repr

/-- Modelled from the spec: Coordinate Data (`ProblemData.hpp`, outside the
core) — three equal-length ordered sequences: values, row indices, column
indices. -/
structure ProblemData where
  V : List Value
  I : List Int
  J : List Int
deriving DecidableEq, Repr

/-- A freshly constructed (default) `ProblemData`. -/
def emptyProblemData : ProblemData := ⟨[], [], []⟩

/-- `DictMat = std::map<int, std::vector<Matrix>>`: variable id to the
ordered blocks for that variable, iterated in the order listed. -/
abbrev DictMat := List (Int × List Matrix)

/-- `Tensor = std::map<int, DictMat>`: parameter id to its variable map,
iterated in the order listed. -/
abbrev Tensor := List (Int × DictMat)

/-- `ProblemTensor = std::map<int, std::vector<ProblemData>>`, modelled as a
partial function from parameter id to the stored sequence. -/
abbrev ProblemTensor := Int → Option (List ProblemData)

/-- `std::map` subscript-assignment `m[k] = v` on a `ProblemTensor`. -/
def tensorSet (m : ProblemTensor) (k : Int) (v : List ProblemData) :
    ProblemTensor :=
  fun p => if p = k then some v else m p

/-- Modelled from the spec: an operator-tree node (`LinOp.hpp`, outside the
core), consumed only through its dimensions `size` and through the external
evaluator; the evaluator being a pure capability called exactly once per
constraint, we record its result for this node as the field `tensor`. -/
structure LinOp where
  size : List Nat
  tensor : Tensor

/-- Modelled from the spec: the external evaluator capability
`evaluate(constraintNode) -> mapping<parameterId, mapping<variableId,
orderedSequence<SparseBlock>>>` (`lin_to_tensor` of `LinOpOperations.hpp`,
outside the core), assumed pure. -/
def lin_to_tensor (lin : LinOp) : Tensor := lin.tensor

/-- Modelled from the spec: flattened size of a `Shape` = product of its
dimensions, with the empty (0-d) shape giving 1 (`vecprod` of `Utils.hpp`,
outside the core). -/
def vecprod (size : List Nat) : Nat := size.prod

/-- `add_matrix_to_vectors` (cvxcore.cpp lines 31-43): iterate the block's
structural non-zeros and push `value`, `row + vert_offset`,
`col + horiz_offset` onto `V`, `I`, `J` respectively. -/
def add_matrix_to_vectors (block : Matrix) (V : List Value) (I : List Int)
    (J : List Int) (vert_offset horiz_offset : Int) :
    List Value × List Int × List Int :=
  block.entries.foldl
    (fun acc it =>
      (acc.1 ++ [it.val],
       acc.2.1 ++ [(it.row : Int) + vert_offset],
       acc.2.2 ++ [(it.col : Int) + horiz_offset]))
    (V, I, J)

/-- `extend_constant_vec` (cvxcore.cpp lines 45-54): for each structural
non-zero, `const_vec[vert_offset + col*rows + row] += value`.  Indexing a
C++ vector in range is assumed; out-of-range `List.set`/`List.getD` are
benign in the model and the theorems carry in-range hypotheses. -/
def extend_constant_vec (const_vec : List Value) (vert_offset : Nat)
    (block : Matrix) : List Value :=
  block.entries.foldl
    (fun cv it =>
      let idx := vert_offset + it.col * block.rows + it.row
      cv.set idx (cv.getD idx 0 + it.val))
    const_vec

/-- Horizontal-offset resolution of `process_constraint` (cvxcore.cpp lines
76-81): the constant column `var_length` for `CONSTANT_ID`, otherwise
`id_to_col[var_id]` — `std::map::operator[]` default-inserts 0 for a
missing key, hence `Option.getD 0`. -/
def horiz_offset_for (var_length : Int) (id_to_col : Int → Option Int)
    (var_id : Int) : Int :=
  if var_id = CONSTANT_ID then var_length else (id_to_col var_id).getD 0

/-- `process_constraint` (cvxcore.cpp lines 57-97).  For each parameter id of
the evaluator result: a fresh empty local vector `probVec` is assigned into
the tensor slot; the inner loops then push copies of a default-constructed
`probBlock` onto the *local* `probVec` and fill the original `probBlock`
via `add_matrix_to_vectors` *after* the copy was pushed — neither the filled
block nor the grown local vector is ever written back into the tensor, which
the model renders as discarded `let` bindings. -/
def process_constraint (lin : LinOp) (problemData : ProblemTensor)
    (vert_offset : Int) (var_length : Int) (id_to_col : Int → Option Int) :
    ProblemTensor :=
  let coeffs := lin_to_tensor lin
  coeffs.foldl
    (fun problemData it =>
      let param_id := it.1
      let probVec : List ProblemData := []
      let problemData := tensorSet problemData param_id probVec
      let var_map := it.2
      let _probVec :=
        var_map.foldl
          (fun probVec in_it =>
            let var_id := in_it.1
            let blocks := in_it.2
            blocks.foldl
              (fun probVec block =>
                let horiz_offset := horiz_offset_for var_length id_to_col var_id
                let probBlock := emptyProblemData
                let probVec := probVec ++ [probBlock]
                let _filled := add_matrix_to_vectors block probBlock.V
                  probBlock.I probBlock.J vert_offset horiz_offset
                probVec)
              probVec)
          probVec
      problemData)
    problemData

/-- `get_total_constraint_length` (cvxcore.cpp lines 101-107), sequential
mode: sum of flattened sizes in list order. -/
def get_total_constraint_length (constraints : List LinOp) : Nat :=
  constraints.foldl (fun result c => result + vecprod c.size) 0

/-- Error classification for the fatal `exit(-1)` branches of the source,
rendered as a recoverable result. -/
inductive BuildError where
  | lengthMismatch
  | notMonotonic
deriving DecidableEq, Repr

/-- The validation loop of the explicit-offset
`get_total_constraint_length` (cvxcore.cpp lines 120-133), on the zipped
(constraint, offset) list: `offset_end = offset_i + vecprod(size_i)`; when a
successor exists its offset must not be `< offset_end`; the final
`offset_end` is returned (0 for the empty list). -/
def checkOffsets : List (LinOp × Int) → Int → Except BuildError Int
  | [], offset_end => .ok offset_end
  | [(constr, offset_start)], _ =>
      .ok (offset_start + (vecprod constr.size : Int))
  | (constr, offset_start) :: (c2, o2) :: rest, _ =>
      let offset_end := offset_start + (vecprod constr.size : Int)
      if o2 < offset_end then .error .notMonotonic
      else checkOffsets ((c2, o2) :: rest) offset_end

/-- `get_total_constraint_length` with offsets (cvxcore.cpp lines 111-134):
a length mismatch is fatal; then the monotonicity scan of `checkOffsets`. -/
def get_total_constraint_length_offsets (constraints : List LinOp)
    (constr_offsets : List Int) : Except BuildError Int :=
  if constraints.length = constr_offsets.length then
    checkOffsets (constraints.zip constr_offsets) 0
  else
    .error .lengthMismatch

/-- `init_data_tensor` (cvxcore.cpp lines 138-150): for each (param_id,
param_size) of the parameter-size map, store a vector of `param_size`
default-constructed `ProblemData` entries. -/
def init_data_tensor (param_to_size : List (Int × Nat)) : ProblemTensor :=
  param_to_size.foldl
    (fun output it => tensorSet output it.1 (List.replicate it.2 emptyProblemData))
    (fun _ => none)

/-- `build_matrix` (cvxcore.cpp lines 166-183), automatic sequential
offsets: initialize the tensor, then process each constraint in order
while advancing `vert_offset` by the constraint's flattened size. -/
def build_matrix (constraints : List LinOp) (var_length : Int)
    (id_to_col : Int → Option Int) (param_to_size : List (Int × Nat)) :
    ProblemTensor :=
  let prob_data := init_data_tensor param_to_size
  let _num_rows := get_total_constraint_length constraints
  (constraints.foldl
    (fun (st : ProblemTensor × Int) constr =>
      (process_constraint constr st.1 st.2 var_length id_to_col,
       st.2 + (vecprod constr.size : Int)))
    (prob_data, 0)).1

/-- `build_matrix` with explicit offsets (cvxcore.cpp lines 193-212):
initialize the tensor, validate the offsets (a fatal validation error
aborts with no output), then process constraint `i` at `constr_offsets[i]`
(the validated length equality makes the zip exhaustive). -/
def build_matrix_offsets (constraints : List LinOp) (var_length : Int)
    (id_to_col : Int → Option Int) (param_to_size : List (Int × Nat))
    (constr_offsets : List Int) : Except BuildError ProblemTensor :=
  let prob_data := init_data_tensor param_to_size
  match get_total_constraint_length_offsets constraints constr_offsets with
  | .error e => .error e
  | .ok _num_rows =>
      .ok ((constraints.zip constr_offsets).foldl
        (fun prob_data it =>
          process_constraint it.1 prob_data it.2 var_length id_to_col)
        prob_data)

/-! ## Auxiliary definitions for the proofs -/

/-- The constraint-processing fold common to both entry points (the
vertical offset being irrelevant to the produced tensor, it is fixed
at 0). -/
def processFold (var_length : Int) (id_to_col : Int → Option Int)
    (constraints : List LinOp) (pd : ProblemTensor) : ProblemTensor :=
  constraints.foldl
    (fun pd c => process_constraint c pd 0 var_length id_to_col) pd

/-- The accumulation step of `extend_constant_vec`, with the block's row
count and entry list abstracted. -/
def ecvStep (rows vo : Nat) (cv : List Value) (it : SparseEntry) :
    List Value :=
  cv.set (vo + it.col * rows + it.row)
    (cv.getD (vo + it.col * rows + it.row) 0 + it.val)

/-- Per the spec (§8) and the refinement claim: the sequential running
sums — the offset of constraint `i` is `acc` plus the sum of the flattened
sizes of constraints `0..i-1`. -/
def sequential_offsets : List LinOp → Int → List Int
  | [], _ => []
  | c :: rest, acc =>
      acc :: sequential_offsets rest (acc + (vecprod c.size : Int))

/-- Sample constraint touching parameter 7 through a constant 1×1 block. -/
def sampleLin : LinOp :=
  ⟨[1], [(7, [(CONSTANT_ID, [⟨1, 1, [⟨(2 : ℚ), 0, 0⟩]⟩])])]⟩

/-- Sample constraint of shape (2,1), evaluating to no contribution. -/
def linTwo : LinOp := ⟨[2, 1], []⟩

/-- Sample constraint of shape (3,1), evaluating to no contribution. -/
def linThree : LinOp := ⟨[3, 1], []⟩

/-! ## Helper lemmas: the triplet accumulator -/

/-- The accumulating fold of `add_matrix_to_vectors` appends one triplet per
visited entry, in visit order, after the pre-existing elements. -/
lemma amv_foldl_eq (l : List SparseEntry) (vo ho : Int) :
    ∀ (V : List Value) (I J : List Int),
      l.foldl
        (fun acc it =>
          (acc.1 ++ [it.val],
           acc.2.1 ++ [(it.row : Int) + vo],
           acc.2.2 ++ [(it.col : Int) + ho]))
        (V, I, J) =
      (V ++ l.map (fun it => it.val),
       I ++ l.map (fun it => (it.row : Int) + vo),
       J ++ l.map (fun it => (it.col : Int) + ho)) := by
  induction l with
  | nil => intro V I J; simp
  | cons e t ih =>
      intro V I J
      simp only [List.foldl_cons, List.map_cons, ih]
      simp

/-- Characterization of `add_matrix_to_vectors`: the result is the three
input sequences extended, in visit order, by one value / row / column per
structural non-zero of the block. -/
lemma amv_eq (block : Matrix) (V : List Value) (I J : List Int)
    (vo ho : Int) :
    add_matrix_to_vectors block V I J vo ho =
      (V ++ block.entries.map (fun it => it.val),
       I ++ block.entries.map (fun it => (it.row : Int) + vo),
       J ++ block.entries.map (fun it => (it.col : Int) + ho)) :=
  amv_foldl_eq block.entries vo ho V I J

/-! ## Helper lemmas: the constraint processor -/

lemma tensorSet_apply (m : ProblemTensor) (k : Int) (v : List ProblemData)
    (p : Int) : tensorSet m k v p = if p = k then some v else m p := rfl

/-- All the inner accumulation of `process_constraint` being dead, the
function reduces to overwriting each touched parameter slot with the empty
sequence. -/
lemma pc_eq (lin : LinOp) (pd : ProblemTensor) (vo var_length : Int)
    (id_to_col : Int → Option Int) :
    process_constraint lin pd vo var_length id_to_col =
      (lin_to_tensor lin).foldl (fun pd it => tensorSet pd it.1 []) pd := rfl

/-- The vertical offset does not influence the tensor produced by
`process_constraint`. -/
lemma pc_vert_irrel (lin : LinOp) (pd : ProblemTensor)
    (vo vo' var_length : Int) (id_to_col : Int → Option Int) :
    process_constraint lin pd vo var_length id_to_col =
      process_constraint lin pd vo' var_length id_to_col := rfl

/-- The column map does not influence the tensor produced by
`process_constraint`. -/
lemma pc_map_irrel (lin : LinOp) (pd : ProblemTensor)
    (vo var_length : Int) (m m' : Int → Option Int) :
    process_constraint lin pd vo var_length m =
      process_constraint lin pd vo var_length m' := rfl

/-- Overwriting fold over a tensor list: a key not appearing in the list is
left untouched. -/
lemma foldl_tensorSet_frozen (l : Tensor) (pd : ProblemTensor) (p : Int)
    (h : ¬ ∃ dm, (p, dm) ∈ l) :
    (l.foldl (fun pd it => tensorSet pd it.1 []) pd) p = pd p := by
  induction l generalizing pd with
  | nil => rfl
  | cons a t ih =>
      rw [List.foldl_cons, ih (tensorSet pd a.1 [])
        (fun ⟨dm, hm⟩ => h ⟨dm, List.mem_cons_of_mem a hm⟩), tensorSet_apply]
      have hpa : p ≠ a.1 := by
        intro hpa
        exact h ⟨a.2, by rw [hpa]; exact List.mem_cons_self a t⟩
      simp [hpa]

/-- Overwriting fold over a tensor list: a key appearing in the list ends
holding the empty sequence. -/
lemma foldl_tensorSet_mem (l : Tensor) (pd : ProblemTensor) (p : Int)
    (h : ∃ dm, (p, dm) ∈ l) :
    (l.foldl (fun pd it => tensorSet pd it.1 []) pd) p = some [] := by
  induction l generalizing pd with
  | nil => obtain ⟨dm, hdm⟩ := h; cases hdm
  | cons a t ih =>
      obtain ⟨dm, hdm⟩ := h
      rcases List.mem_cons.mp hdm with heq | hmem
      · by_cases hp : ∃ dm, (p, dm) ∈ t
        · exact ih (tensorSet pd a.1 []) hp
        · have := foldl_tensorSet_frozen t (tensorSet pd a.1 []) p hp
          rw [List.foldl_cons, this, tensorSet_apply]
          have : p = a.1 := by rw [← heq]
          simp [this]
      · exact ih (tensorSet pd a.1 []) ⟨dm, hmem⟩

/-- Slot-level description of `process_constraint`: a parameter id occurring
in the evaluator result is reset to the empty sequence. -/
lemma pc_apply_mem (lin : LinOp) (pd : ProblemTensor) (vo var_length : Int)
    (id_to_col : Int → Option Int) (p : Int)
    (h : ∃ dm, (p, dm) ∈ lin_to_tensor lin) :
    process_constraint lin pd vo var_length id_to_col p = some [] := by
  rw [pc_eq]; exact foldl_tensorSet_mem _ pd p h

/-- Slot-level description of `process_constraint`: a parameter id not
occurring in the evaluator result keeps its previous slot value. -/
lemma pc_apply_frozen (lin : LinOp) (pd : ProblemTensor)
    (vo var_length : Int) (id_to_col : Int → Option Int) (p : Int)
    (h : ¬ ∃ dm, (p, dm) ∈ lin_to_tensor lin) :
    process_constraint lin pd vo var_length id_to_col p = pd p := by
  rw [pc_eq]; exact foldl_tensorSet_frozen _ pd p h

/-! ## Helper lemmas: the drivers -/

/-- The sequential driver's pair fold collapses to `processFold`. -/
lemma bm_eq (constraints : List LinOp) (var_length : Int)
    (id_to_col : Int → Option Int) (param_to_size : List (Int × Nat)) :
    build_matrix constraints var_length id_to_col param_to_size =
      processFold var_length id_to_col constraints
        (init_data_tensor param_to_size) := by
  show (constraints.foldl _ (init_data_tensor param_to_size, (0 : Int))).1 = _
  rw [processFold]
  generalize init_data_tensor param_to_size = pd
  generalize (0 : Int) = off
  induction constraints generalizing pd off with
  | nil => rfl
  | cons c t ih =>
      simp only [List.foldl_cons]
      rw [ih]
      rfl

/-- With matching lengths, the explicit-offset driver's zip fold collapses
to `processFold`. -/
lemma zip_fold_eq (constraints : List LinOp) (constr_offsets : List Int)
    (var_length : Int) (id_to_col : Int → Option Int) (pd : ProblemTensor)
    (h : constraints.length = constr_offsets.length) :
    (constraints.zip constr_offsets).foldl
        (fun pd it => process_constraint it.1 pd it.2 var_length id_to_col)
        pd =
      processFold var_length id_to_col constraints pd := by
  rw [processFold]
  induction constraints generalizing constr_offsets pd with
  | nil => rfl
  | cons c t ih =>
      cases constr_offsets with
      | nil => cases h
      | cons o os =>
          simp only [List.zip_cons_cons, List.foldl_cons]
          rw [pc_vert_irrel c pd o 0]
          exact ih os _ (Nat.succ.inj h)

/-- An explicit-offset build that succeeds validated the offsets list
length, and its tensor is the `processFold` of the initialized tensor. -/
lemma bmo_ok (constraints : List LinOp) (var_length : Int)
    (id_to_col : Int → Option Int) (param_to_size : List (Int × Nat))
    (constr_offsets : List Int) (t : ProblemTensor)
    (h : build_matrix_offsets constraints var_length id_to_col param_to_size
      constr_offsets = .ok t) :
    constraints.length = constr_offsets.length ∧
      t = processFold var_length id_to_col constraints
        (init_data_tensor param_to_size) := by
  rw [build_matrix_offsets] at h
  have hlen : constraints.length = constr_offsets.length := by
    by_contra hne
    rw [get_total_constraint_length_offsets, if_neg hne] at h
    cases h
  refine ⟨hlen, ?_⟩
  rcases hr : get_total_constraint_length_offsets constraints constr_offsets
    with e | r
  · rw [hr] at h; cases h
  · rw [hr] at h
    cases h
    exact zip_fold_eq constraints constr_offsets var_length id_to_col _ hlen

/-! ## Helper lemmas: offset validation -/

/-- A strict adjacent-pair violation makes the validation scan fail with
the ordering error. -/
lemma checkOffsets_error (l : List (LinOp × Int)) :
    ∀ (acc : Int),
      (∃ i a b, l[i]? = some a ∧ l[i + 1]? = some b ∧
        b.2 < a.2 + (vecprod a.1.size : Int)) →
      checkOffsets l acc = .error .notMonotonic := by
  induction l with
  | nil =>
      rintro acc ⟨i, a, b, ha, -, -⟩
      simp at ha
  | cons x tail ih =>
      intro acc h
      cases tail with
      | nil =>
          obtain ⟨i, a, b, -, hb, -⟩ := h
          rcases i with - | j <;> simp at hb
      | cons y t =>
          by_cases hlt : y.2 < x.2 + (vecprod x.1.size : Int)
          · simp [checkOffsets, hlt]
          · have hstep : checkOffsets (x :: y :: t) acc =
                checkOffsets (y :: t) (x.2 + (vecprod x.1.size : Int)) := by
              simp [checkOffsets, hlt]
            rw [hstep]
            apply ih
            obtain ⟨i, a, b, ha, hb, hvi⟩ := h
            rcases i with - | j
            · simp only [List.getElem?_cons_zero, List.getElem?_cons_succ,
                Option.some.injEq] at ha hb
              subst ha
              subst hb
              exact absurd hvi hlt
            · exact ⟨j, a, b, by simpa using ha, by simpa using hb, hvi⟩

/-- Without adjacent-pair violations the validation scan succeeds, returning
the last pair's offset plus flattened size (the accumulator for the empty
list). -/
lemma checkOffsets_ok (l : List (LinOp × Int)) :
    ∀ (acc : Int),
      (∀ i a b, l[i]? = some a → l[i + 1]? = some b →
        a.2 + (vecprod a.1.size : Int) ≤ b.2) →
      checkOffsets l acc =
        .ok ((l.getLast?.map
          (fun a => a.2 + (vecprod a.1.size : Int))).getD acc) := by
  induction l with
  | nil => intro acc _; rfl
  | cons x tail ih =>
      intro acc h
      cases tail with
      | nil => simp [checkOffsets]
      | cons y t =>
          have hle : x.2 + (vecprod x.1.size : Int) ≤ y.2 :=
            h 0 x y (by simp) (by simp)
          have hstep : checkOffsets (x :: y :: t) acc =
              checkOffsets (y :: t) (x.2 + (vecprod x.1.size : Int)) := by
            simp [checkOffsets, not_lt.mpr hle]
          rw [hstep, ih _ (fun i a b ha hb => h (i + 1) a b (by simpa using ha)
            (by simpa using hb))]
          have hsome : ∃ z, (y :: t).getLast? = some z :=
            Option.isSome_iff_exists.mp (by simp [List.getLast?_isSome])
          obtain ⟨z, hz⟩ := hsome
          rw [List.getLast?_cons_cons, hz]
          rfl

lemma sequential_offsets_length (cs : List LinOp) :
    ∀ (a : Int), (sequential_offsets cs a).length = cs.length := by
  induction cs with
  | nil => intro a; rfl
  | cons c t ih => intro a; simp [sequential_offsets, ih]

/-- The sequential running sums always pass the explicit-offset
validation. -/
lemma checkOffsets_seq (cs : List LinOp) :
    ∀ (a x : Int),
      ∃ r, checkOffsets (cs.zip (sequential_offsets cs a)) x = .ok r := by
  induction cs with
  | nil => intro a x; exact ⟨x, rfl⟩
  | cons c t ih =>
      intro a x
      cases t with
      | nil => exact ⟨a + (vecprod c.size : Int), rfl⟩
      | cons c2 t2 =>
          obtain ⟨r, hr⟩ := ih (a + (vecprod c.size : Int))
            (a + (vecprod c.size : Int))
          refine ⟨r, ?_⟩
          simpa [sequential_offsets, checkOffsets] using hr

/-! ## Helper lemmas: the dense constant extender -/

lemma ecv_eq_foldl (cv : List Value) (vo : Nat) (block : Matrix) :
    extend_constant_vec cv vo block =
      block.entries.foldl (ecvStep block.rows vo) cv := rfl

lemma ecv_fold_length (rows vo : Nat) (l : List SparseEntry) :
    ∀ (cv : List Value), (l.foldl (ecvStep rows vo) cv).length = cv.length := by
  induction l with
  | nil => intro cv; rfl
  | cons e t ih =>
      intro cv
      rw [List.foldl_cons, ih]
      exact List.length_set cv _ _

/-- Pointwise description of the dense accumulation: position `p` gains the
sum of the values of all entries flattening to `p`; other positions are
unchanged. -/
lemma ecv_fold_getD (rows vo : Nat) (l : List SparseEntry) :
    ∀ (cv : List Value),
      (∀ e ∈ l, vo + e.col * rows + e.row < cv.length) →
      ∀ (p : Nat),
        (l.foldl (ecvStep rows vo) cv).getD p 0 =
          cv.getD p 0 +
            ((l.filter (fun e => vo + e.col * rows + e.row == p)).map
              (fun e => e.val)).sum := by
  induction l with
  | nil => intro cv _ p; simp
  | cons e t ih =>
      intro cv h p
      have hbound : vo + e.col * rows + e.row < cv.length :=
        h e (List.mem_cons_self e t)
      have hlen : (ecvStep rows vo cv e).length = cv.length :=
        List.length_set cv _ _
      have ht : ∀ x ∈ t, vo + x.col * rows + x.row <
          (ecvStep rows vo cv e).length := by
        intro x hx
        rw [hlen]
        exact h x (List.mem_cons_of_mem e hx)
      rw [List.foldl_cons, ih (ecvStep rows vo cv e) ht p]
      by_cases hip : vo + e.col * rows + e.row = p
      · have hget : (ecvStep rows vo cv e).getD p 0 =
            cv.getD p 0 + e.val := by
          rw [← hip, ecvStep, List.getD_eq_getD_get?, List.get?_eq_getElem?,
            List.getElem?_set_eq_of_lt _ hbound]
          rfl
        rw [hget, List.filter_cons_of_pos (by simpa using hip),
          List.map_cons, List.sum_cons, add_assoc]
      · have hget : (ecvStep rows vo cv e).getD p 0 = cv.getD p 0 := by
          rw [ecvStep, List.getD_eq_getD_get?, List.get?_eq_getElem?,
            List.getElem?_set_ne hip, List.getD_eq_getD_get?,
            List.get?_eq_getElem?]
        rw [hget, List.filter_cons_of_neg (by simpa using hip)]

/-! ## Helper lemmas: sequential total length -/

lemma gtcl_eq_sum (cs : List LinOp) :
    ∀ (a : Nat),
      cs.foldl (fun result c => result + vecprod c.size) a =
        a + (cs.map (fun c => vecprod c.size)).sum := by
  induction cs with
  | nil => intro a; simp
  | cons c t ih =>
      intro a
      rw [List.foldl_cons, ih, List.map_cons, List.sum_cons, Nat.add_assoc]

/-! ## Helper lemmas: assembled drivers -/

/-- A successful offset validation lets the explicit-offset driver return
the zipped constraint fold. -/
lemma bmo_of_ok (constraints : List LinOp) (var_length : Int)
    (id_to_col : Int → Option Int) (param_to_size : List (Int × Nat))
    (constr_offsets : List Int) (r : Int)
    (h : get_total_constraint_length_offsets constraints constr_offsets =
      .ok r) :
    build_matrix_offsets constraints var_length id_to_col param_to_size
        constr_offsets =
      .ok ((constraints.zip constr_offsets).foldl
        (fun pd it => process_constraint it.1 pd it.2 var_length id_to_col)
        (init_data_tensor param_to_size)) := by
  unfold build_matrix_offsets
  rw [h]

/-- A failed offset validation aborts the explicit-offset driver with that
error and no tensor. -/
lemma bmo_of_error (constraints : List LinOp) (var_length : Int)
    (id_to_col : Int → Option Int) (param_to_size : List (Int × Nat))
    (constr_offsets : List Int) (e : BuildError)
    (h : get_total_constraint_length_offsets constraints constr_offsets =
      .error e) :
    build_matrix_offsets constraints var_length id_to_col param_to_size
      constr_offsets = .error e := by
  unfold build_matrix_offsets
  rw [h]

/-- A parameter slot touched by some constraint of the list (or already
holding the empty sequence) holds the empty sequence after the
constraint-processing fold. -/
lemma processFold_apply_mem (var_length : Int) (id_to_col : Int → Option Int)
    (cs : List LinOp) :
    ∀ (pd : ProblemTensor) (p : Int),
      ((∃ lin ∈ cs, ∃ dm, (p, dm) ∈ lin_to_tensor lin) ∨ pd p = some []) →
      processFold var_length id_to_col cs pd p = some [] := by
  induction cs with
  | nil =>
      rintro pd p (⟨lin, hlin, -⟩ | h)
      · cases hlin
      · exact h
  | cons c t ih =>
      rintro pd p h
      show processFold var_length id_to_col t
        (process_constraint c pd 0 var_length id_to_col) p = some []
      apply ih
      rcases h with ⟨lin, hlin, hdm⟩ | hpd
      · rcases List.mem_cons.mp hlin with rfl | hmem
        · exact Or.inr (pc_apply_mem lin pd 0 var_length id_to_col p hdm)
        · exact Or.inl ⟨lin, hmem, hdm⟩
      · by_cases hc : ∃ dm, (p, dm) ∈ lin_to_tensor c
        · exact Or.inr (pc_apply_mem c pd 0 var_length id_to_col p hc)
        · exact Or.inr
            ((pc_apply_frozen c pd 0 var_length id_to_col p hc).trans hpd)

/-! ## Claim theorems -/

/-- Claim C1: every parameter id appearing in the evaluator's result for at
least one constraint is mapped, in the Parameter Tensor returned by either
`build_matrix` entry point, to an empty sequence containing no triplets:
`process_constraint` assigns a fresh empty local vector into the tensor
slot and only ever appends (pre-fill copies of) `ProblemData` records to a
local copy that is never written back. -/
theorem claim_C1_touched_params_empty (cs : List LinOp) (var_length : Int)
    (id_to_col : Int → Option Int) (param_to_size : List (Int × Nat))
    (p : Int) (h : ∃ lin ∈ cs, ∃ dm, (p, dm) ∈ lin_to_tensor lin) :
    build_matrix cs var_length id_to_col param_to_size p = some [] ∧
    ∀ offs t,
      build_matrix_offsets cs var_length id_to_col param_to_size offs =
        .ok t → t p = some [] := by
  constructor
  · rw [bm_eq]
    exact processFold_apply_mem var_length id_to_col cs _ p (Or.inl h)
  · intro offs t hok
    obtain ⟨-, ht⟩ := bmo_ok cs var_length id_to_col param_to_size offs t hok
    rw [ht]
    exact processFold_apply_mem var_length id_to_col cs _ p (Or.inl h)

/-- Witness for C1 at a concrete input: one constraint touching parameter 7
with a non-empty block, declared parameter size 1 — the returned tensor
still maps 7 to the empty sequence. -/
theorem claim_C1_witness :
    build_matrix [sampleLin] 4 (fun _ => none) [(7, 1)] 7 = some [] :=
  (claim_C1_touched_params_empty [sampleLin] 4 (fun _ => none) [(7, 1)] 7
    ⟨sampleLin, List.mem_singleton.mpr rfl,
      [(CONSTANT_ID, [⟨1, 1, [⟨(2 : ℚ), 0, 0⟩]⟩])],
      List.mem_singleton.mpr rfl⟩).1

/-- Claim C2 (code bug): with one constraint touching parameter 7 and a
declared size of 2, `init_data_tensor` does create a 2-entry sequence, but
the built tensor maps 7 to a length-0 sequence — `process_constraint`
clobbers the initialized entry list, contradicting the declared-size
invariant and `build_matrix`'s own output documentation. -/
theorem claim_C2_declared_size_violated :
    build_matrix [sampleLin] 4 (fun _ => none) [(7, 2)] 7 = some [] ∧
    init_data_tensor [(7, 2)] 7 = some (List.replicate 2 emptyProblemData) :=
  ⟨rfl, rfl⟩

/-- Claim C3: building with explicit offsets equal to the sequential
running sums returns exactly the tensor of the automatic-offset build. -/
theorem claim_C3_running_sums_refine (cs : List LinOp) (var_length : Int)
    (id_to_col : Int → Option Int) (param_to_size : List (Int × Nat)) :
    build_matrix_offsets cs var_length id_to_col param_to_size
        (sequential_offsets cs 0) =
      .ok (build_matrix cs var_length id_to_col param_to_size) := by
  obtain ⟨r, hr⟩ := checkOffsets_seq cs 0 0
  have hlen : cs.length = (sequential_offsets cs 0).length :=
    (sequential_offsets_length cs 0).symm
  have hok : get_total_constraint_length_offsets cs
      (sequential_offsets cs 0) = .ok r := by
    rw [get_total_constraint_length_offsets, if_pos hlen]
    exact hr
  rw [bmo_of_ok cs var_length id_to_col param_to_size _ r hok,
    zip_fold_eq cs _ var_length id_to_col _ hlen, bm_eq]

/-- Claim C4: the triplets recorded for one block all carry column indices
in `[horiz_offset, horiz_offset + blockColumns)`, where the resolved
horizontal offset is `var_length` for `CONSTANT_ID` and `columnMap[var_id]`
for a declared variable. -/
theorem claim_C4_column_ranges (block : Matrix) (var_length : Int)
    (id_to_col : Int → Option Int) (var_id : Int) (vert_offset : Int)
    (hcols : ∀ e ∈ block.entries, e.col < block.cols) :
    (∀ j ∈ (add_matrix_to_vectors block emptyProblemData.V
        emptyProblemData.I emptyProblemData.J vert_offset
        (horiz_offset_for var_length id_to_col var_id)).2.2,
      horiz_offset_for var_length id_to_col var_id ≤ j ∧
        j < horiz_offset_for var_length id_to_col var_id +
          (block.cols : Int)) ∧
    (var_id = CONSTANT_ID →
      horiz_offset_for var_length id_to_col var_id = var_length) ∧
    (∀ c, var_id ≠ CONSTANT_ID → id_to_col var_id = some c →
      horiz_offset_for var_length id_to_col var_id = c) := by
  refine ⟨?_, ?_, ?_⟩
  · intro j hj
    rw [amv_eq] at hj
    simp only [emptyProblemData, List.nil_append, List.mem_map] at hj
    obtain ⟨e, he, rfl⟩ := hj
    have h1 : (0 : Int) ≤ (e.col : Int) := Int.natCast_nonneg _
    have h2 : (e.col : Int) < (block.cols : Int) := by
      exact_mod_cast hcols e he
    omega
  · intro h
    rw [horiz_offset_for, if_pos h]
  · intro c hne hc
    rw [horiz_offset_for, if_neg hne, hc]
    rfl

/-- Witness for C4 at a concrete input: a 2×3 block with one non-zero in
column 1, variable id 2 mapped to column 10 — the recorded column index 11
lies in `[10, 13)`. -/
theorem claim_C4_witness :
    horiz_offset_for 4 (fun v => if v = 2 then some 10 else none) 2 ≤ 11 ∧
    (11 : Int) < horiz_offset_for 4 (fun v => if v = 2 then some 10 else none) 2 +
      ((⟨2, 3, [⟨(5 : ℚ), 0, 1⟩]⟩ : Matrix).cols : Int) :=
  (claim_C4_column_ranges ⟨2, 3, [⟨(5 : ℚ), 0, 1⟩]⟩ 4
    (fun v => if v = 2 then some 10 else none) 2 0 (by decide)).1
    11 (by decide)

/-- Claim C5: explicit-offset validation — a length mismatch is a
configuration error; a strictly smaller next offset than the current
offset plus flattened size is an ordering error; otherwise the result is
the last constraint's offset plus its flattened size (pairs taken from the
zip of constraints with offsets). -/
theorem claim_C5_offset_validation (cs : List LinOp) (offs : List Int) :
    (cs.length ≠ offs.length →
      get_total_constraint_length_offsets cs offs =
        .error .lengthMismatch) ∧
    (cs.length = offs.length →
      ((∃ i a b, (cs.zip offs)[i]? = some a ∧
          (cs.zip offs)[i + 1]? = some b ∧
          b.2 < a.2 + (vecprod a.1.size : Int)) →
        get_total_constraint_length_offsets cs offs =
          .error .notMonotonic) ∧
      ((∀ i a b, (cs.zip offs)[i]? = some a →
          (cs.zip offs)[i + 1]? = some b →
          a.2 + (vecprod a.1.size : Int) ≤ b.2) →
        get_total_constraint_length_offsets cs offs =
          .ok (((cs.zip offs).getLast?.map
            (fun a => a.2 + (vecprod a.1.size : Int))).getD 0))) := by
  refine ⟨fun hne => ?_, fun hlen => ⟨fun hv => ?_, fun hok => ?_⟩⟩
  · rw [get_total_constraint_length_offsets, if_neg hne]
  · rw [get_total_constraint_length_offsets, if_pos hlen]
    exact checkOffsets_error _ 0 hv
  · rw [get_total_constraint_length_offsets, if_pos hlen]
    exact checkOffsets_ok _ 0 hok

/-- Witness for C5 at concrete inputs: shapes (2,1) and (3,1) — offsets
`[0]` mismatch the length; offsets `[0, 1]` overlap; offsets `[0, 2]` are
accepted with total 2 + 3 = 5. -/
theorem claim_C5_witness :
    get_total_constraint_length_offsets [linTwo, linThree] [0] =
      .error .lengthMismatch ∧
    get_total_constraint_length_offsets [linTwo, linThree] [0, 1] =
      .error .notMonotonic ∧
    get_total_constraint_length_offsets [linTwo, linThree] [0, 2] =
      .ok 5 := by
  refine ⟨(claim_C5_offset_validation [linTwo, linThree] [0]).1 (by decide),
    ((claim_C5_offset_validation [linTwo, linThree] [0, 1]).2 rfl).1
      ⟨0, (linTwo, 0), (linThree, 1), rfl, rfl, by decide⟩, ?_⟩
  have h := ((claim_C5_offset_validation [linTwo, linThree] [0, 2]).2 rfl).2
    ?_
  · exact h
  · intro i a b ha hb
    match i, ha, hb with
    | 0, ha, hb =>
        cases Option.some.inj ha
        cases Option.some.inj hb
        decide
    | n + 1, ha, hb => simp at hb

/-- Claim C6, corrected: a gap (next offset strictly greater than the
previous offset plus flattened size) is accepted, not rejected — offsets
`[0, 5]` for shapes (2,1) and (3,1) leave a gap over rows `[2, 5)` yet the
build succeeds and returns a tensor. -/
theorem claim_C6_counterexample :
    (0 : Int) + (vecprod linTwo.size : Int) < 5 ∧
    get_total_constraint_length_offsets [linTwo, linThree] [0, 5] =
      .ok 8 ∧
    build_matrix_offsets [linTwo, linThree] 4 (fun _ => none) [(1, 2)]
      [0, 5] = .ok (init_data_tensor [(1, 2)]) :=
  ⟨by decide, rfl, rfl⟩

/-- Claim C6 as amended: an explicit-offset build with a wrong-length
offsets list fails with the configuration error, and one with an
overlapping adjacent pair fails with the ordering error; in both cases the
result is the bare error, with no partial Parameter Tensor. -/
theorem claim_C6_amended_errors (cs : List LinOp) (offs : List Int)
    (var_length : Int) (id_to_col : Int → Option Int)
    (param_to_size : List (Int × Nat)) :
    (cs.length ≠ offs.length →
      build_matrix_offsets cs var_length id_to_col param_to_size offs =
        .error .lengthMismatch) ∧
    (cs.length = offs.length →
      (∃ i a b, (cs.zip offs)[i]? = some a ∧
        (cs.zip offs)[i + 1]? = some b ∧
        b.2 < a.2 + (vecprod a.1.size : Int)) →
      build_matrix_offsets cs var_length id_to_col param_to_size offs =
        .error .notMonotonic) := by
  constructor
  · intro hne
    apply bmo_of_error
    rw [get_total_constraint_length_offsets, if_neg hne]
  · intro hlen hv
    apply bmo_of_error
    rw [get_total_constraint_length_offsets, if_pos hlen]
    exact checkOffsets_error _ 0 hv

/-- Witness for the amended C6 at concrete inputs: wrong length `[0]` and
overlap `[0, 1]` each abort the build with the corresponding error. -/
theorem claim_C6_amended_witness :
    build_matrix_offsets [linTwo, linThree] 4 (fun _ => none) [(1, 2)]
      [0] = .error .lengthMismatch ∧
    build_matrix_offsets [linTwo, linThree] 4 (fun _ => none) [(1, 2)]
      [0, 1] = .error .notMonotonic :=
  ⟨(claim_C6_amended_errors [linTwo, linThree] [0] 4 (fun _ => none)
      [(1, 2)]).1 (by decide),
    (claim_C6_amended_errors [linTwo, linThree] [0, 1] 4 (fun _ => none)
      [(1, 2)]).2 rfl
      ⟨0, (linTwo, 0), (linThree, 1), rfl, rfl, by decide⟩⟩

/-- Claim C7: `add_matrix_to_vectors` appends, after the untouched
pre-existing elements of `V`, `I`, `J` and in visit order, exactly one
triplet `(value, row + vert_offset, col + horiz_offset)` per structural
non-zero of the block — with no deduplication of repeated positions. -/
theorem claim_C7_accumulator_appends (block : Matrix) (V : List Value)
    (I J : List Int) (vert_offset horiz_offset : Int) :
    add_matrix_to_vectors block V I J vert_offset horiz_offset =
      (V ++ block.entries.map (fun it => it.val),
       I ++ block.entries.map (fun it => (it.row : Int) + vert_offset),
       J ++ block.entries.map (fun it => (it.col : Int) + horiz_offset)) :=
  amv_eq block V I J vert_offset horiz_offset

/-- Claim C8: `extend_constant_vec` preserves the dense vector's length and
adds into position `p` the sum of the values of the block's non-zeros whose
column-major flattened index `vert_offset + col*rows + row` equals `p`,
leaving every other position unchanged. -/
theorem claim_C8_dense_accumulates (cv : List Value) (vert_offset : Nat)
    (block : Matrix)
    (h : ∀ e ∈ block.entries,
      vert_offset + e.col * block.rows + e.row < cv.length) :
    (extend_constant_vec cv vert_offset block).length = cv.length ∧
    ∀ p, (extend_constant_vec cv vert_offset block).getD p 0 =
      cv.getD p 0 +
        ((block.entries.filter
            (fun e => vert_offset + e.col * block.rows + e.row == p)).map
          (fun e => e.val)).sum := by
  rw [ecv_eq_foldl]
  exact ⟨ecv_fold_length block.rows vert_offset block.entries cv,
    ecv_fold_getD block.rows vert_offset block.entries cv h⟩

/-- Witness for C8 at the spec's concrete example: two non-zeros of values
3 and −1 at flattened index 0, applied at offset 0, leave that dense
position equal to 2, not −1. -/
theorem claim_C8_witness :
    (extend_constant_vec [(0 : ℚ)] 0
        ⟨1, 1, [⟨(3 : ℚ), 0, 0⟩, ⟨(-1 : ℚ), 0, 0⟩]⟩).getD 0 0 = 2 := by
  have h := (claim_C8_dense_accumulates [(0 : ℚ)] 0
    ⟨1, 1, [⟨(3 : ℚ), 0, 0⟩, ⟨(-1 : ℚ), 0, 0⟩]⟩ (by decide)).2 0
  rw [h]
  show (0 : ℚ) + ((3 : ℚ) + ((-1 : ℚ) + 0)) = 2
  norm_num

/-- Claim C9: the sequential-mode total row count is the sum, in list
order, of each constraint's flattened size, and is 0 for the empty list;
the function is a pure fold that performs no validation. -/
theorem claim_C9_sequential_total (cs : List LinOp) :
    get_total_constraint_length cs =
      (cs.map (fun c => vecprod c.size)).sum ∧
    get_total_constraint_length ([] : List LinOp) = 0 :=
  ⟨(gtcl_eq_sum cs 0).trans (Nat.zero_add _), rfl⟩

/-- Claim C10: a variable id with no entry in the column map resolves to
horizontal offset 0 (the `std::map::operator[]` default), no error is
raised, and the caller-visible build result is the same as if the map
already contained the defaulted entry. -/
theorem claim_C10_missing_variable_defaults (var_length : Int)
    (id_to_col : Int → Option Int) (w : Int) (hmiss : id_to_col w = none)
    (hne : w ≠ CONSTANT_ID) :
    horiz_offset_for var_length id_to_col w = 0 ∧
    ∀ cs param_to_size,
      build_matrix cs var_length id_to_col param_to_size =
        build_matrix cs var_length
          (fun v => if v = w then some 0 else id_to_col v) param_to_size := by
  constructor
  · rw [horiz_offset_for, if_neg hne, hmiss]
    rfl
  · intro cs param_to_size
    rfl

/-- Witness for C10 at a concrete input: id 3 absent from an empty column
map resolves to offset 0. -/
theorem claim_C10_witness :
    horiz_offset_for 4 (fun _ => none) 3 = 0 :=
  (claim_C10_missing_variable_defaults 4 (fun _ => none) 3 rfl
    (by decide)).1

end Cvxcore
